import Mathlib

/-!
# Verification of `generate_flashcards.py` (musical-flashcards)

Shallow embedding of the flashcard generator.  Raster images are modelled as
a size together with a pixel function; PIL's resampling, font rasterisation
and file I/O are external collaborators and appear as oracle parameters.
Python floats in the geometry arithmetic are modelled exactly by `ℚ`
(every operation performed — division by 2 and 4, small-integer products,
sums — is exact in binary floating point at these magnitudes), and
Python's `int()` truncation toward zero by `pyInt`.
-/

namespace Flashcards

/-- An RGB raster image: dimensions plus a pixel lookup `x y ↦ (r, g, b)`. -/
structure RGBImage where
  width : Nat
  height : Nat
  pixel : Nat → Nat → Nat × Nat × Nat

/-- `sum(pixel[:3]) < 384`: a pixel is dark iff its channel sum is below 384. -/
def isDark (p : Nat × Nat × Nat) : Bool :=
  decide (p.1 + p.2.1 + p.2.2 < 384)

/-- Darkness of the scanned centre-column pixel at row `y`
(`scan_x = width // 2`). -/
def darkAt (img : RGBImage) (y : Nat) : Bool :=
  isDark (img.pixel (img.width / 2) y)

/-- The `for y in range(height)` scan loop of `get_stave_info`:
`n` rows remain, the current row is `y`, `inLine`/`lineStart` are the loop
state (`in_line`, `line_start`), and the returned list is the `lines`
accumulated from here on.  A run's midpoint `(line_start + y) // 2` is
emitted when a non-dark pixel ends it. -/
def scanAux (d : Nat → Bool) : Nat → Nat → Bool → Nat → List Nat
  | 0, _, _, _ => []
  | n + 1, y, inLine, lineStart =>
    if d y then
      if inLine then scanAux d n (y + 1) true lineStart
      else scanAux d n (y + 1) true y
    else
      if inLine then (lineStart + y) / 2 :: scanAux d n (y + 1) false lineStart
      else scanAux d n (y + 1) false lineStart

/-- The `(in_line, line_start)` state after scanning `n` rows from `y`. -/
def scanState (d : Nat → Bool) : Nat → Nat → Bool → Nat → Bool × Nat
  | 0, _, inLine, lineStart => (inLine, lineStart)
  | n + 1, y, inLine, lineStart =>
    if d y then
      if inLine then scanState d n (y + 1) true lineStart
      else scanState d n (y + 1) true y
    else scanState d n (y + 1) false lineStart

/-- The full column scan of `get_stave_info`: rows `0, …, height-1` of the
centre column, starting out of a line. -/
def scanColumn (img : RGBImage) : List Nat :=
  scanAux (darkAt img) img.height 0 false 0

/-- `get_stave_info`: detect stave lines on the centre column; if at least 5
runs were found return the first 5, otherwise fall back to 5 evenly spaced
estimates `(height // 6) * (i + 1)`. -/
def get_stave_info (img : RGBImage) : List Nat :=
  let lines := scanColumn img
  if 5 ≤ lines.length then lines.take 5
  else (List.range 5).map (fun i => (img.height / 6) * (i + 1))

/-! ## Constants (pixels at 300 DPI)

`int(mm * (1/25.4) * 300)` is modelled exactly as `mm * 3000 / 254` in `Nat`;
the float computation in the source yields the same values
(814, 318, 3507, 2480, 118). -/

def DPI : Nat := 300

def CARD_WIDTH : Nat := 69 * DPI * 10 / 254

def CARD_HEIGHT : Nat := 27 * DPI * 10 / 254

def A4_WIDTH : Nat := 297 * DPI * 10 / 254

def A4_HEIGHT : Nat := 210 * DPI * 10 / 254

def MARGIN : Nat := 10 * DPI * 10 / 254

/-- Python `int()` applied to a (here exactly ℚ-modelled) float: truncation
toward zero. -/
def pyInt (q : ℚ) : ℤ := if 0 ≤ q then ⌊q⌋ else ⌈q⌉

/-- The arguments of the `draw_note(draw, note_x, int(note_y), needs_ledger)`
call made by `create_flashcard` (`note_x` stays a float, `note_y` is
truncated). -/
structure NoteCall where
  x : ℚ
  y : ℤ
  ledger : Bool
deriving DecidableEq

/-- The right-side answer: the note-name text rendered on a padded canvas of
size `w × h`, rotated 180°, pasted at `(x, y)`. -/
structure AnswerDraw where
  text : String
  rotated : Bool
  x : ℤ
  y : ℤ
  w : ℤ
  h : ℤ
deriving DecidableEq

/-- The drawing operations a rendered flashcard consists of:
the background paste (position and resized dimensions) if any, the
`draw_note` call if any, the dashed fold segments, the answer paste and the
border rectangle. -/
structure CardSpec where
  bgPaste : Option (ℤ × ℤ × ℤ × ℤ)
  note : Option NoteCall
  fold : List (Nat × Nat)
  answer : AnswerDraw
  border : Bool
deriving DecidableEq

/-- The dashed-fold-line `while y < CARD_HEIGHT` loop: each dash covers rows
`y` to `min (y + dash_length) CARD_HEIGHT`, advancing by
`dash_length + gap_length = 15`. -/
def foldSegs (y : Nat) : List (Nat × Nat) :=
  if h : y < CARD_HEIGHT then (y, min (y + 10) CARD_HEIGHT) :: foldSegs (y + 15)
  else []
termination_by CARD_HEIGHT - y
decreasing_by omega

/-- The background scaling and centring of `create_flashcard`: resize the
background to the left half of the card (capped by the card height if the
aspect ratio would overflow), centre it, and return
`((paste_x, paste_y), (new_width, new_height), bg_resized)`.
Python `//` on possibly negative ints is floor division (`Int.fdiv`). -/
def bgLayout (resize : RGBImage → ℤ → ℤ → RGBImage) (bg : RGBImage) :
    (ℤ × ℤ) × (ℤ × ℤ) × RGBImage :=
  let left_half_width : ℤ := (CARD_WIDTH : ℤ) / 2
  let aspect_ratio : ℚ := (bg.height : ℚ) / (bg.width : ℚ)
  let nh0 : ℤ := pyInt ((left_half_width : ℚ) * aspect_ratio)
  let dims : ℤ × ℤ :=
    if (CARD_HEIGHT : ℤ) < nh0 then
      (pyInt ((CARD_HEIGHT : ℚ) / aspect_ratio), (CARD_HEIGHT : ℤ))
    else (left_half_width, nh0)
  let paste_x := (left_half_width - dims.1).fdiv 2
  let paste_y := ((CARD_HEIGHT : ℤ) - dims.2).fdiv 2
  ((paste_x, paste_y), dims, resize bg dims.1 dims.2)

/-- The guarded note placement of `create_flashcard`: when at least 5 stave
lines are available (`stave_lines`, detected on the resized background),
`draw_note` is called at
`x = CARD_WIDTH / 3.5`, `y = int(bottom_line_y - position * (line_spacing / 2))`
with `bottom_line_y = stave_lines[4] + paste_y` and
`line_spacing = (stave_lines[4] - stave_lines[0]) / 4`. -/
def noteCallFor (stave_lines : List Nat) (paste_y : ℤ) (position : ℤ) :
    Option NoteCall :=
  if 5 ≤ stave_lines.length then
    let bottom_line_y : ℤ := (stave_lines.getD 4 0 : ℤ) + paste_y
    let line_spacing : ℚ :=
      ((stave_lines.getD 4 0 : ℚ) - (stave_lines.getD 0 0 : ℚ)) / 4
    let note_y : ℚ := (bottom_line_y : ℚ) - (position : ℚ) * (line_spacing / 2)
    let note_x : ℚ := (CARD_WIDTH : ℚ) / (7 / 2)
    let needs_ledger := decide (position < -1 ∨ 9 < position)
    some ⟨note_x, pyInt note_y, needs_ledger⟩
  else none

/-- The right-side answer of `create_flashcard`: text measured by `textSize`,
drawn with 10px padding, rotated 180°, centred on the right half
(`text_x = middle_x + (CARD_WIDTH // 2 - text_img.width) // 2`). -/
def answerLayout (textSize : String → ℤ × ℤ) (note_name : String) : AnswerDraw :=
  let middle_x : ℤ := (CARD_WIDTH : ℤ) / 2
  let ts := textSize note_name
  let text_w := ts.1 + 20
  let text_h := ts.2 + 20
  let text_x := middle_x + ((CARD_WIDTH : ℤ) / 2 - text_w).fdiv 2
  let text_y := ((CARD_HEIGHT : ℤ) - text_h).fdiv 2
  ⟨note_name, true, text_x, text_y, text_w, text_h⟩

/-- `create_flashcard(note_name, clef_type, position)`.

`resize` stands for PIL's `Image.resize` (LANCZOS resampling is an external
collaborator: it is given the source image and the target dimensions),
`textSize` for `draw.textbbox`'s `(width, height)` of the rendered text, and
`trebleBG`/`bassBG` for the module-level cached backgrounds. -/
def create_flashcard (resize : RGBImage → ℤ → ℤ → RGBImage)
    (textSize : String → ℤ × ℤ)
    (trebleBG bassBG : Option RGBImage)
    (note_name : String) (clef_type : String) (position : ℤ) : CardSpec :=
  let bg_image := if clef_type = "treble" then trebleBG else bassBG
  let leftPart : Option (ℤ × ℤ × ℤ × ℤ) × Option NoteCall :=
    match bg_image with
    | none => (none, none)
    | some bg =>
      let layout := bgLayout resize bg
      let stave_lines := get_stave_info layout.2.2
      (some (layout.1.1, layout.1.2, layout.2.1.1, layout.2.1.2),
       noteCallFor stave_lines layout.1.2 position)
  { bgPaste := leftPart.1
    note := leftPart.2
    fold := foldSegs 0
    answer := answerLayout textSize note_name
    border := true }

/-! ## Note catalog and driver -/

def TREBLE_NOTES : List (String × ℤ) :=
  [("C", -2), ("D", -1), ("E", 0), ("F", 1), ("G", 2), ("A", 3), ("B", 4),
   ("C", 5), ("D", 6), ("E", 7), ("F", 8), ("G", 9), ("A", 10)]

def BASS_NOTES : List (String × ℤ) :=
  [("E", -2), ("F", -1), ("G", 0), ("A", 1), ("B", 2), ("C", 3), ("D", 4),
   ("E", 5), ("F", 6), ("G", 7), ("A", 8), ("B", 9), ("C", 10)]

/-- The `flashcards` list that `main` builds: one card per `TREBLE_NOTES`
entry in order, then one per `BASS_NOTES` entry in order. -/
def mainFlashcards (resize : RGBImage → ℤ → ℤ → RGBImage)
    (textSize : String → ℤ × ℤ) (trebleBG bassBG : Option RGBImage) :
    List CardSpec :=
  TREBLE_NOTES.map
    (fun e => create_flashcard resize textSize trebleBG bassBG e.1 "treble" e.2)
  ++ BASS_NOTES.map
    (fun e => create_flashcard resize textSize trebleBG bassBG e.1 "bass" e.2)

/-- The catalog in generation order: each treble entry tagged `"treble"`,
then each bass entry tagged `"bass"`, as `(name, clef, position)`. -/
def catalogEntries : List (String × String × ℤ) :=
  TREBLE_NOTES.map (fun e => (e.1, "treble", e.2)) ++
  BASS_NOTES.map (fun e => (e.1, "bass", e.2))

/-! ## Sheet tiler -/

def printable_width : Nat := A4_WIDTH - 2 * MARGIN

def printable_height : Nat := A4_HEIGHT - 2 * MARGIN

def cards_per_row : Nat := printable_width / CARD_WIDTH

def cards_per_col : Nat := printable_height / CARD_HEIGHT

def cards_per_sheet : Nat := cards_per_row * cards_per_col

/-- The `for sheet_num in range(0, len(flashcards), cards_per_sheet)`
slicing: consecutive slices of `cards_per_sheet` cards. -/
def chunks {α : Type} (l : List α) : List (List α) :=
  match l with
  | [] => []
  | x :: xs =>
    (x :: xs).take cards_per_sheet :: chunks ((x :: xs).drop cards_per_sheet)
termination_by l.length
decreasing_by
  have h : 0 < cards_per_sheet := by decide
  simp only [List.length_drop, List.length_cons]
  omega

/-- One sheet: each card of the slice pasted at
`(MARGIN + col * CARD_WIDTH, MARGIN + row * CARD_HEIGHT)` with
`row = idx // cards_per_row`, `col = idx % cards_per_row`. -/
def sheetPlacements {α : Type} (chunk : List α) : List ((Nat × Nat) × α) :=
  ((List.range chunk.length).zip chunk).map (fun ic =>
    ((MARGIN + ic.1 % cards_per_row * CARD_WIDTH,
      MARGIN + ic.1 / cards_per_row * CARD_HEIGHT), ic.2))

/-- `arrange_on_a4(flashcards)`: the list of sheets with their pasted cards. -/
def arrange_on_a4 {α : Type} (cards : List α) : List (List ((Nat × Nat) × α)) :=
  (chunks cards).map sheetPlacements

/-! ## Example inputs used as witnesses and counterexamples -/

/-- 12-row image whose centre column is dark exactly on the five bands
`[1,2), [3,4), [5,6), [7,8), [9,10)`. -/
def bandsImg : RGBImage :=
  ⟨4, 12, fun _ y => if y % 2 = 1 ∧ y < 11 then (0, 0, 0) else (255, 255, 255)⟩

/-- The five dark bands of `bandsImg`, as `(start, stop)` half-open rows. -/
def bandsImgBands : List (Nat × Nat) := [(1, 2), (3, 4), (5, 6), (7, 8), (9, 10)]

/-- An all-white 2×12 image. -/
def whiteImg12 : RGBImage := ⟨2, 12, fun _ _ => (255, 255, 255)⟩

/-- An all-white 1×5 image (degenerately short). -/
def whiteImg5 : RGBImage := ⟨1, 5, fun _ _ => (255, 255, 255)⟩

/-- An all-black 3×7 image. -/
def blackImg7 : RGBImage := ⟨3, 7, fun _ _ => (0, 0, 0)⟩

/-- A concrete resampling oracle used in witnesses. -/
def wResize : RGBImage → ℤ → ℤ → RGBImage := fun _ _ _ => whiteImg12

/-- A concrete text-measuring oracle used in witnesses. -/
def wTextSize : String → ℤ × ℤ := fun _ => (40, 30)

/-! ## Lemmas about the column scan -/

section ScanLemmas

variable (d : Nat → Bool)

lemma scanAux_zero (y : Nat) (b : Bool) (ls : Nat) : scanAux d 0 y b ls = [] := rfl

lemma scanAux_succ (n y : Nat) (b : Bool) (ls : Nat) :
    scanAux d (n + 1) y b ls =
      if d y then
        if b then scanAux d n (y + 1) true ls
        else scanAux d n (y + 1) true y
      else
        if b then (ls + y) / 2 :: scanAux d n (y + 1) false ls
        else scanAux d n (y + 1) false ls := rfl

/-- Scanning a fully light region out of a line emits nothing and keeps the
state. -/
lemma scanAux_light :
    ∀ k m s ls, (∀ y, s ≤ y → y < s + k → d y = false) →
      scanAux d (k + m) s false ls = scanAux d m (s + k) false ls := by
  intro k
  induction k with
  | zero => intro m s ls _; simp
  | succ k ih =>
    intro m s ls h
    have hd : d s = false := h s le_rfl (by omega)
    have he : k + 1 + m = (k + m) + 1 := by omega
    rw [he, scanAux_succ, hd]
    simp only [Bool.false_eq_true, if_false]
    rw [ih m (s + 1) ls (fun y h1 h2 => h y (by omega) (by omega))]
    congr 1
    omega

/-- Scanning a fully dark region while inside a line emits nothing and keeps
the run start. -/
lemma scanAux_dark_in :
    ∀ k m s ls, (∀ y, s ≤ y → y < s + k → d y = true) →
      scanAux d (k + m) s true ls = scanAux d m (s + k) true ls := by
  intro k
  induction k with
  | zero => intro m s ls _; simp
  | succ k ih =>
    intro m s ls h
    have hd : d s = true := h s le_rfl (by omega)
    have he : k + 1 + m = (k + m) + 1 := by omega
    rw [he, scanAux_succ, hd]
    simp only [if_true]
    rw [ih m (s + 1) ls (fun y h1 h2 => h y (by omega) (by omega))]
    congr 1
    omega

/-- Entering a nonempty dark run from outside records its start row. -/
lemma scanAux_enter (k m s ls : Nat) (hk : 0 < k)
    (h : ∀ y, s ≤ y → y < s + k → d y = true) :
    scanAux d (k + m) s false ls = scanAux d m (s + k) true s := by
  obtain ⟨k', rfl⟩ : ∃ k', k = k' + 1 := ⟨k - 1, by omega⟩
  have hd : d s = true := h s le_rfl (by omega)
  have he : k' + 1 + m = (k' + m) + 1 := by omega
  rw [he, scanAux_succ, hd]
  simp only [Bool.false_eq_true, if_true, if_false]
  rw [scanAux_dark_in d k' m (s + 1) s (fun y h1 h2 => h y (by omega) (by omega))]
  congr 1
  omega

/-- Scanning a region that is dark to the very end emits nothing, regardless
of the incoming state. -/
lemma scanAux_all_dark :
    ∀ k s (b : Bool) ls, (∀ y, s ≤ y → y < s + k → d y = true) →
      scanAux d k s b ls = [] := by
  intro k
  induction k with
  | zero => intro s b ls _; rfl
  | succ k ih =>
    intro s b ls h
    have hd : d s = true := h s le_rfl (by omega)
    rw [scanAux_succ, hd]
    simp only [if_true]
    cases b <;>
      exact ih (s + 1) true _ (fun y h1 h2 => h y (by omega) (by omega))

/-- The scan over `n + m` rows splits at row `s + n`, the state carried over
by `scanState`. -/
lemma scanAux_split :
    ∀ n m s (b : Bool) ls,
      scanAux d (n + m) s b ls =
        scanAux d n s b ls ++
          scanAux d m (s + n) (scanState d n s b ls).1 (scanState d n s b ls).2 := by
  intro n
  induction n with
  | zero => intro m s b ls; simp [scanAux_zero, scanState]
  | succ n ih =>
    intro m s b ls
    have he : n + 1 + m = (n + m) + 1 := by omega
    have hs : s + (n + 1) = (s + 1) + n := by omega
    rw [he, scanAux_succ, hs]
    by_cases hd : d s <;> cases b <;>
      simp [scanAux_succ, scanState, hd, ih m (s + 1)]

/-- The emitted midpoints are strictly increasing, and all of them lie at or
after the current point of the scan. -/
lemma scanAux_chain :
    ∀ n s ls (b : Bool), (b = true → ls < s) →
      (scanAux d n s b ls).Chain' (· < ·) ∧
        ∀ o ∈ scanAux d n s b ls, (if b then (ls + s) / 2 else s) ≤ o := by
  intro n
  induction n with
  | zero => intro s ls b _; simp [scanAux_zero]
  | succ n ih =>
    intro s ls b hls
    rw [scanAux_succ]
    by_cases hd : d s
    · cases b
      · simp only [hd, if_true, Bool.false_eq_true, if_false]
        obtain ⟨h1, h2⟩ := ih (s + 1) s true (fun _ => by omega)
        refine ⟨h1, fun o ho => ?_⟩
        have := h2 o ho
        simp only [if_true] at this
        omega
      · simp only [hd, if_true]
        have hls' : ls < s := hls rfl
        obtain ⟨h1, h2⟩ := ih (s + 1) ls true (fun _ => by omega)
        refine ⟨h1, fun o ho => ?_⟩
        have := h2 o ho
        simp only [if_true] at this ⊢
        omega
    · simp only [hd, Bool.false_eq_true, if_false]
      cases b
      · simp only [Bool.false_eq_true, if_false]
        obtain ⟨h1, h2⟩ := ih (s + 1) ls false (by simp)
        refine ⟨h1, fun o ho => ?_⟩
        have := h2 o ho
        simp only [Bool.false_eq_true, if_false] at this
        omega
      · simp only [if_true]
        obtain ⟨h1, h2⟩ := ih (s + 1) ls false (by simp)
        have hls' : ls < s := hls rfl
        constructor
        · rw [List.chain'_cons']
          refine ⟨fun b hb => ?_, h1⟩
          have hmem : b ∈ scanAux d n (s + 1) false ls := List.mem_of_mem_head? hb
          have := h2 b hmem
          simp only [Bool.false_eq_true, if_false] at this
          omega
        · intro o ho
          rcases List.mem_cons.mp ho with rfl | ho'
          · omega
          · have := h2 o ho'
            simp only [Bool.false_eq_true, if_false] at this
            omega

/-- Characterisation of the scan on a column that is dark exactly on a
sorted, separated list of bands lying strictly inside the scanned range:
one midpoint `(start + stop) / 2` is emitted per band, in order. -/
lemma scanAux_bands :
    ∀ (bands : List (Nat × Nat)) m s ls,
      bands.Pairwise (fun p q => p.2 < q.1) →
      (∀ p ∈ bands, s ≤ p.1 ∧ p.1 < p.2 ∧ p.2 < s + m) →
      (∀ y, s ≤ y → y < s + m →
        (d y = true ↔ ∃ p ∈ bands, p.1 ≤ y ∧ y < p.2)) →
      scanAux d m s false ls = bands.map (fun p => (p.1 + p.2) / 2) := by
  intro bands
  induction bands with
  | nil =>
    intro m s ls _ _ hdark
    have hlight : ∀ y, s ≤ y → y < s + m → d y = false := by
      intro y h1 h2
      have := hdark y h1 h2
      simp at this
      exact this
    have := scanAux_light d m 0 s ls hlight
    simpa [scanAux_zero] using this
  | cons hd tl ih =>
    intro m s ls hsep hwf hdark
    obtain ⟨a, b⟩ := hd
    obtain ⟨hsa, hab, hbm⟩ := hwf (a, b) (List.mem_cons_self _ _)
    have hsep' := (List.pairwise_cons.mp hsep).2
    have htl_gt : ∀ p ∈ tl, b < p.1 := fun p hp =>
      (List.pairwise_cons.mp hsep).1 p hp
    -- rows [s, a) are light
    have hlight1 : ∀ y, s ≤ y → y < s + (a - s) → d y = false := by
      intro y h1 h2
      by_contra hc
      have hy : d y = true := by
        cases hdy : d y
        · exact absurd hdy hc
        · rfl
      obtain ⟨p, hp, hp1, hp2⟩ := (hdark y h1 (by omega)).mp hy
      rcases List.mem_cons.mp hp with rfl | hp'
      · simp at hp1 hp2; omega
      · have := htl_gt p hp'
        omega
    -- rows [a, b) are dark
    have hdark2 : ∀ y, a ≤ y → y < a + (b - a) → d y = true := by
      intro y h1 h2
      exact (hdark y (by omega) (by omega)).mpr
        ⟨(a, b), List.mem_cons_self _ _, h1, by omega⟩
    -- row b is light
    have hlightb : d b = false := by
      by_contra hc
      have hy : d b = true := by
        cases hdy : d b
        · exact absurd hdy hc
        · rfl
      obtain ⟨p, hp, hp1, hp2⟩ := (hdark b (by omega) (by omega)).mp hy
      rcases List.mem_cons.mp hp with rfl | hp'
      · simp at hp2
      · have := htl_gt p hp'
        omega
    have hm1 : m = (a - s) + ((b - a) + (s + m - b)) := by omega
    rw [hm1, scanAux_light d (a - s) _ s ls hlight1]
    have hsa' : s + (a - s) = a := by omega
    rw [hsa']
    rw [scanAux_enter d (b - a) _ a ls (by omega) hdark2]
    have hab' : a + (b - a) = b := by omega
    rw [hab']
    have hm2 : s + m - b = (s + m - b - 1) + 1 := by omega
    rw [hm2]
    have he : (s + m - b - 1) + 1 = 1 + (s + m - b - 1) := by omega
    rw [he]
    rw [show (1 : Nat) + (s + m - b - 1) = (s + m - b - 1) + 1 from by omega]
    rw [scanAux_succ, hlightb]
    simp only [Bool.false_eq_true, if_false, if_true]
    rw [ih (s + m - b - 1) (b + 1) a hsep'
      (fun p hp => ⟨by have := htl_gt p hp; omega,
        (hwf p (List.mem_cons_of_mem _ hp)).2.1,
        by have := (hwf p (List.mem_cons_of_mem _ hp)).2.2; omega⟩)
      (fun y h1 h2 => by
        rw [hdark y (by omega) (by omega)]
        constructor
        · rintro ⟨p, hp, hp1, hp2⟩
          rcases List.mem_cons.mp hp with rfl | hp'
          · simp at hp1 hp2; omega
          · exact ⟨p, hp', hp1, hp2⟩
        · rintro ⟨p, hp, hp1, hp2⟩
          exact ⟨p, List.mem_cons_of_mem _ hp, hp1, hp2⟩)]
    simp

end ScanLemmas

lemma get_stave_info_eq (img : RGBImage) :
    get_stave_info img =
      if 5 ≤ (scanColumn img).length then (scanColumn img).take 5
      else (List.range 5).map (fun i => img.height / 6 * (i + 1)) := rfl

lemma fallback_eq (h : Nat) :
    (List.range 5).map (fun i => h / 6 * (i + 1)) =
      [h / 6, h / 6 * 2, h / 6 * 3, h / 6 * 4, h / 6 * 5] := by
  simp [List.range_succ]

/-- `get_stave_info` always returns exactly 5 positions. -/
lemma get_stave_info_length (img : RGBImage) : (get_stave_info img).length = 5 := by
  rw [get_stave_info_eq]
  by_cases h : 5 ≤ (scanColumn img).length
  · simp [h]
  · simp [h]

/-- The full-column scan is strictly increasing. -/
lemma scanColumn_chain (img : RGBImage) : (scanColumn img).Chain' (· < ·) :=
  (scanAux_chain (darkAt img) img.height 0 0 false (by simp)).1

/-- With the same background cached for both clefs, `create_flashcard`'s
`draw_note` call is `noteCallFor` on the detected stave lines of the resized
background, whatever the requested clef. -/
lemma create_flashcard_note_eq (resize : RGBImage → ℤ → ℤ → RGBImage)
    (textSize : String → ℤ × ℤ) (img : RGBImage)
    (name clef : String) (position : ℤ) :
    (create_flashcard resize textSize (some img) (some img) name clef position).note =
      noteCallFor (get_stave_info (bgLayout resize img).2.2)
        (bgLayout resize img).1.2 position := by
  unfold create_flashcard
  simp only [ite_self]

lemma noteCallFor_of_length (stave_lines : List Nat) (paste_y position : ℤ)
    (h5 : 5 ≤ stave_lines.length) :
    noteCallFor stave_lines paste_y position =
      some ⟨(CARD_WIDTH : ℚ) / (7 / 2),
            pyInt ((((stave_lines.getD 4 0 : ℤ) + paste_y : ℤ) : ℚ) -
              (position : ℚ) *
                ((((stave_lines.getD 4 0 : ℚ) - (stave_lines.getD 0 0 : ℚ)) / 4) / 2)),
            decide (position < -1 ∨ 9 < position)⟩ := by
  unfold noteCallFor
  rw [if_pos h5]

lemma chunks_of_length_le {α : Type} (l : List α) (hne : l ≠ [])
    (hle : l.length ≤ cards_per_sheet) : chunks l = [l] := by
  cases l with
  | nil => simp at hne
  | cons x xs =>
    rw [chunks.eq_def]
    simp only
    rw [List.take_of_length_le hle, List.drop_eq_nil_of_le hle]
    rw [chunks.eq_def]

lemma chunks_mem_length_le {α : Type} (l : List α) :
    ∀ c ∈ chunks l, c.length ≤ cards_per_sheet := by
  induction l using chunks.induct with
  | case1 => simp [chunks.eq_def]
  | case2 x xs ih =>
    intro c hc
    rw [chunks.eq_def] at hc
    simp only [List.mem_cons] at hc
    rcases hc with rfl | hc
    · simp [List.length_take]
    · exact ih c hc

lemma sheetPlacements_mem {α : Type} (c : List α) (pc : (Nat × Nat) × α)
    (h : pc ∈ sheetPlacements c) :
    ∃ i < c.length,
      pc.1 = (MARGIN + i % cards_per_row * CARD_WIDTH,
              MARGIN + i / cards_per_row * CARD_HEIGHT) := by
  unfold sheetPlacements at h
  obtain ⟨ic, hic, rfl⟩ := List.mem_map.mp h
  obtain ⟨h1, _⟩ := List.of_mem_zip hic
  exact ⟨ic.1, List.mem_range.mp h1, rfl⟩

lemma sheetPlacements_length {α : Type} (c : List α) :
    (sheetPlacements c).length = c.length := by
  simp [sheetPlacements]

/-! ## Claim theorems -/

/-- C2: for every image whose scanned centre column is dark (channel sum
below 384) exactly on 5 solid bands at known rows, `get_stave_info` returns
exactly 5 line centres, top to bottom, each the midpoint of the
corresponding band. -/
theorem stave_detector_five_bands (img : RGBImage) (bands : List (Nat × Nat))
    (hlen : bands.length = 5)
    (hsep : bands.Pairwise (fun p q => p.2 < q.1))
    (hwf : ∀ p ∈ bands, p.1 < p.2 ∧ p.2 < img.height)
    (hdark : ∀ y, y < img.height →
      (darkAt img y = true ↔ ∃ p ∈ bands, p.1 ≤ y ∧ y < p.2)) :
    get_stave_info img = bands.map (fun p => (p.1 + p.2) / 2) := by
  have hscan : scanColumn img = bands.map (fun p => (p.1 + p.2) / 2) := by
    unfold scanColumn
    exact scanAux_bands (darkAt img) bands img.height 0 0 hsep
      (fun p hp => ⟨Nat.zero_le _, (hwf p hp).1, by simpa using (hwf p hp).2⟩)
      (fun y h1 h2 => hdark y (by simpa using h2))
  rw [get_stave_info_eq, hscan, if_pos (by simp [hlen]),
    List.take_of_length_le (by simp [hlen])]

/-- C2 witness: a concrete 12-row image with bands
`[1,2), [3,4), [5,6), [7,8), [9,10)` yields centres `[1, 3, 5, 7, 9]`. -/
theorem stave_detector_five_bands_witness :
    bandsImgBands.length = 5 ∧
    get_stave_info bandsImg = bandsImgBands.map (fun p => (p.1 + p.2) / 2) :=
  ⟨by decide,
   stave_detector_five_bands bandsImg bandsImgBands (by decide) (by decide)
     (by decide) (by decide)⟩

/-- C3: an image whose scanned centre column has no dark pixel falls back to
the 5 evenly spaced estimates at multiples of `height / 6`. -/
theorem stave_detector_fallback (img : RGBImage)
    (h : ∀ y, y < img.height → darkAt img y = false) :
    get_stave_info img =
      [img.height / 6, img.height / 6 * 2, img.height / 6 * 3,
       img.height / 6 * 4, img.height / 6 * 5] := by
  have hscan : scanColumn img = [] := by
    unfold scanColumn
    have := scanAux_light (darkAt img) img.height 0 0 0
      (fun y h1 h2 => h y (by omega))
    simpa [scanAux_zero] using this
  rw [get_stave_info_eq, hscan, if_neg (by simp), fallback_eq]

/-- C3 witness: the all-white 12-row image yields `[2, 4, 6, 8, 10]`. -/
theorem stave_detector_fallback_witness :
    get_stave_info whiteImg12 = [2, 4, 6, 8, 10] := by
  rw [stave_detector_fallback whiteImg12 (by decide)]
  decide

/-- C10: a contiguous dark run reaching the last scanned row is never
emitted: if the column is dark from row `a` to the bottom, the scan result
is exactly the scan of the first `a` rows; in particular an entirely dark
column detects nothing and the evenly spaced fallback is returned. -/
theorem trailing_dark_run_ignored (img : RGBImage) (a : Nat)
    (ha : a ≤ img.height)
    (h : ∀ y, a ≤ y → y < img.height → darkAt img y = true) :
    scanColumn img = scanAux (darkAt img) a 0 false 0 ∧
    (a = 0 → get_stave_info img =
      [img.height / 6, img.height / 6 * 2, img.height / 6 * 3,
       img.height / 6 * 4, img.height / 6 * 5]) := by
  have h1 : scanColumn img = scanAux (darkAt img) a 0 false 0 := by
    unfold scanColumn
    rw [show img.height = a + (img.height - a) from by omega, scanAux_split]
    rw [scanAux_all_dark (darkAt img) (img.height - a) (0 + a) _ _
      (fun y hy1 hy2 => h y (by omega) (by omega))]
    exact List.append_nil _
  refine ⟨h1, fun ha0 => ?_⟩
  subst ha0
  have hscan : scanColumn img = [] := by rw [h1]; rfl
  rw [get_stave_info_eq, hscan, if_neg (by simp), fallback_eq]

/-- C10 witness: the all-black 7-row image detects nothing and returns the
fallback `[1, 2, 3, 4, 5]`. -/
theorem trailing_dark_run_ignored_witness :
    get_stave_info blackImg7 = [1, 2, 3, 4, 5] := by
  rw [(trailing_dark_run_ignored blackImg7 0 (by decide) (by decide)).2 rfl]
  decide

/-- C4 counterexample: on a degenerate 5-row all-white image the fallback is
`[0, 0, 0, 0, 0]`, which is not strictly increasing, so the detected-or-
fallback geometry is not monotonically increasing for every input image. -/
theorem stave_monotone_counterexample :
    get_stave_info whiteImg5 = [0, 0, 0, 0, 0] ∧
    ¬ (get_stave_info whiteImg5).Chain' (· < ·) := by
  have h : get_stave_info whiteImg5 = [0, 0, 0, 0, 0] := by decide
  refine ⟨h, ?_⟩
  rw [h]
  simp [List.chain'_cons]

/-- C4 (amended): `get_stave_info` always returns exactly 5 values, always
non-decreasing; they are strictly increasing whenever the image is at least
6 rows tall (detected lines are strictly increasing unconditionally; only
the degenerate fallback on images shorter than 6 rows repeats values). -/
theorem stave_geometry_invariant (img : RGBImage) :
    (get_stave_info img).length = 5 ∧
    (get_stave_info img).Chain' (· ≤ ·) ∧
    (6 ≤ img.height → (get_stave_info img).Chain' (· < ·)) := by
  refine ⟨get_stave_info_length img, ?_, ?_⟩
  · rw [get_stave_info_eq]
    by_cases hlen : 5 ≤ (scanColumn img).length
    · rw [if_pos hlen]
      exact ((scanColumn_chain img).take 5).imp (fun a b => le_of_lt)
    · rw [if_neg hlen, fallback_eq]
      simp only [List.chain'_cons, List.chain'_singleton, and_true]
      omega
  · intro h6
    rw [get_stave_info_eq]
    by_cases hlen : 5 ≤ (scanColumn img).length
    · rw [if_pos hlen]
      exact (scanColumn_chain img).take 5
    · rw [if_neg hlen, fallback_eq]
      simp only [List.chain'_cons, List.chain'_singleton, and_true]
      omega

/-- C4 witness: on the all-white 12-row image the 5 returned positions are
strictly increasing. -/
theorem stave_geometry_invariant_witness :
    (get_stave_info whiteImg12).length = 5 ∧
    (get_stave_info whiteImg12).Chain' (· < ·) :=
  ⟨(stave_geometry_invariant whiteImg12).1,
   (stave_geometry_invariant whiteImg12).2.2 (by decide)⟩

/-- C1: `main` renders exactly 26 flashcards — one per catalog entry, the 13
treble entries in order followed by the 13 bass entries in order — so the
list has length 26 and its i-th element is the card of the i-th entry. -/
theorem main_card_count_and_order (resize : RGBImage → ℤ → ℤ → RGBImage)
    (textSize : String → ℤ × ℤ) (trebleBG bassBG : Option RGBImage) :
    (mainFlashcards resize textSize trebleBG bassBG).length = 26 ∧
    TREBLE_NOTES.length = 13 ∧ BASS_NOTES.length = 13 ∧
    mainFlashcards resize textSize trebleBG bassBG =
      catalogEntries.map
        (fun e => create_flashcard resize textSize trebleBG bassBG e.1 e.2.1 e.2.2) := by
  refine ⟨rfl, rfl, rfl, ?_⟩
  simp [mainFlashcards, catalogEntries, TREBLE_NOTES, BASS_NOTES]

/-- C5: with a background present (here cached for both clefs) the note
glyph's vertical centre is `int(bottom_line_y - position * (line_spacing / 2))`
for every integer position, where `bottom_line_y` is the bottom detected
line offset by the paste position and `line_spacing` is the distance
between the extreme detected lines divided by 4.  `0 < img.width` mirrors
Python, where a zero-width background would raise `ZeroDivisionError`. -/
theorem note_vertical_position (resize : RGBImage → ℤ → ℤ → RGBImage)
    (textSize : String → ℤ × ℤ) (img : RGBImage) (_hw : 0 < img.width)
    (name clef : String) (position : ℤ) :
    (create_flashcard resize textSize (some img) (some img) name clef position).note =
      some ⟨(CARD_WIDTH : ℚ) / (7 / 2),
            pyInt (((((get_stave_info (bgLayout resize img).2.2).getD 4 0 : ℤ) +
                (bgLayout resize img).1.2 : ℤ) : ℚ) -
              (position : ℚ) *
                (((((get_stave_info (bgLayout resize img).2.2).getD 4 0 : ℚ) -
                  ((get_stave_info (bgLayout resize img).2.2).getD 0 0 : ℚ)) / 4) / 2)),
            decide (position < -1 ∨ 9 < position)⟩ := by
  rw [create_flashcard_note_eq,
    noteCallFor_of_length _ _ _ (by rw [get_stave_info_length])]

/-- C5 witness at a concrete background, oracles and position 0. -/
theorem note_vertical_position_witness :
    0 < whiteImg12.width ∧
    (create_flashcard wResize wTextSize (some whiteImg12) (some whiteImg12)
        "E" "treble" 0).note =
      some ⟨(CARD_WIDTH : ℚ) / (7 / 2),
            pyInt (((((get_stave_info (bgLayout wResize whiteImg12).2.2).getD 4 0 : ℤ) +
                (bgLayout wResize whiteImg12).1.2 : ℤ) : ℚ) -
              ((0 : ℤ) : ℚ) *
                (((((get_stave_info (bgLayout wResize whiteImg12).2.2).getD 4 0 : ℚ) -
                  ((get_stave_info (bgLayout wResize whiteImg12).2.2).getD 0 0 : ℚ)) / 4) / 2)),
            decide ((0 : ℤ) < -1 ∨ 9 < (0 : ℤ))⟩ :=
  ⟨by decide,
   note_vertical_position wResize wTextSize whiteImg12 (by decide) "E" "treble" 0⟩

/-- C6: the ledger-line flag passed to `draw_note` is true iff
`position < -1` or `position > 9`, for every integer position (and so false
on all of `[-1, 9]`). -/
theorem ledger_flag_rule (resize : RGBImage → ℤ → ℤ → RGBImage)
    (textSize : String → ℤ × ℤ) (img : RGBImage) (hw : 0 < img.width)
    (name clef : String) (position : ℤ) :
    ∃ n : NoteCall,
      (create_flashcard resize textSize (some img) (some img)
        name clef position).note = some n ∧
      (n.ledger = true ↔ (position < -1 ∨ 9 < position)) := by
  refine ⟨_, note_vertical_position resize textSize img hw name clef position, ?_⟩
  simp

/-- C6 witness: at position 10 the flag is true; the theorem applied at a
concrete input. -/
theorem ledger_flag_rule_witness :
    0 < whiteImg12.width ∧
    ∃ n : NoteCall,
      (create_flashcard wResize wTextSize (some whiteImg12) (some whiteImg12)
        "A" "treble" 10).note = some n ∧
      (n.ledger = true ↔ ((10 : ℤ) < -1 ∨ 9 < (10 : ℤ))) :=
  ⟨by decide,
   ledger_flag_rule wResize wTextSize whiteImg12 (by decide) "A" "treble" 10⟩

/-- C7: `arrange_on_a4` packs row-major with per-sheet capacity
`⌊printable_width / CARD_WIDTH⌋ * ⌊printable_height / CARD_HEIGHT⌋`
(printable area = A4 minus the 10mm margin on each side), and every pasted
card's bounding box lies within the printable area. -/
theorem arrange_within_printable {α : Type} (cards : List α)
    (sheet : List ((Nat × Nat) × α)) (hs : sheet ∈ arrange_on_a4 cards)
    (pc : (Nat × Nat) × α) (hpc : pc ∈ sheet) :
    cards_per_sheet =
      (A4_WIDTH - 2 * MARGIN) / CARD_WIDTH *
        ((A4_HEIGHT - 2 * MARGIN) / CARD_HEIGHT) ∧
    MARGIN ≤ pc.1.1 ∧ pc.1.1 + CARD_WIDTH ≤ A4_WIDTH - MARGIN ∧
    MARGIN ≤ pc.1.2 ∧ pc.1.2 + CARD_HEIGHT ≤ A4_HEIGHT - MARGIN := by
  refine ⟨rfl, ?_⟩
  unfold arrange_on_a4 at hs
  obtain ⟨c, hc, rfl⟩ := List.mem_map.mp hs
  obtain ⟨i, hi, hpc1⟩ := sheetPlacements_mem c pc hpc
  have hlen := chunks_mem_length_le cards c hc
  have hsheet : cards_per_sheet = 28 := by decide
  have hi28 : i < 28 := by omega
  have e1 : pc.1.1 = MARGIN + i % cards_per_row * CARD_WIDTH := by rw [hpc1]
  have e2 : pc.1.2 = MARGIN + i / cards_per_row * CARD_HEIGHT := by rw [hpc1]
  rw [e1, e2]
  have h1 : MARGIN = 118 := by decide
  have h2 : CARD_WIDTH = 814 := by decide
  have h3 : CARD_HEIGHT = 318 := by decide
  have h4 : A4_WIDTH = 3507 := by decide
  have h5 : A4_HEIGHT = 2480 := by decide
  have h6 : cards_per_row = 4 := by decide
  rw [h1, h2, h3, h4, h5, h6]
  omega

/-- C7 witness: a single-card arrangement places the card at the margin
corner, within the printable area. -/
theorem arrange_within_printable_witness :
    ([((MARGIN + 0 % cards_per_row * CARD_WIDTH,
        MARGIN + 0 / cards_per_row * CARD_HEIGHT), ())] ∈
      arrange_on_a4 [()] ∧ (118, 118) = (MARGIN + 0 % cards_per_row * CARD_WIDTH,
        MARGIN + 0 / cards_per_row * CARD_HEIGHT)) ∧
    cards_per_sheet =
      (A4_WIDTH - 2 * MARGIN) / CARD_WIDTH *
        ((A4_HEIGHT - 2 * MARGIN) / CARD_HEIGHT) ∧
    MARGIN ≤ 118 ∧ 118 + CARD_WIDTH ≤ A4_WIDTH - MARGIN ∧
    MARGIN ≤ 118 ∧ 118 + CARD_HEIGHT ≤ A4_HEIGHT - MARGIN := by
  have hmem : [((MARGIN + 0 % cards_per_row * CARD_WIDTH,
      MARGIN + 0 / cards_per_row * CARD_HEIGHT), ())] ∈ arrange_on_a4 [()] := by
    unfold arrange_on_a4
    rw [chunks_of_length_le [()] (by simp) (by decide)]
    simp [sheetPlacements, List.range_succ]
  exact ⟨⟨hmem, by decide⟩,
    arrange_within_printable [()] _ hmem _ (List.mem_singleton.mpr rfl)⟩

/-- C8: for 26 cards and capacity `C = cards_per_sheet`, the number of
sheets is `⌈26 / C⌉` and the last sheet holds the remainder
`26 - C * (⌈26 / C⌉ - 1)` with no padding. -/
theorem sheets_for_26_cards {α : Type} (cards : List α)
    (h : cards.length = 26) :
    (arrange_on_a4 cards).length =
      (26 + cards_per_sheet - 1) / cards_per_sheet ∧
    ∃ last, (arrange_on_a4 cards).getLast? = some last ∧
      last.length = 26 - cards_per_sheet *
        ((26 + cards_per_sheet - 1) / cards_per_sheet - 1) := by
  have hne : cards ≠ [] := by
    intro h0
    rw [h0] at h
    simp at h
  have hch : chunks cards = [cards] :=
    chunks_of_length_le cards hne (by rw [h]; decide)
  have harr : arrange_on_a4 cards = [sheetPlacements cards] := by
    unfold arrange_on_a4
    rw [hch]
    rfl
  rw [harr]
  refine ⟨by rw [List.length_singleton]; decide, sheetPlacements cards, rfl, ?_⟩
  rw [sheetPlacements_length, h]
  decide

/-- C8 witness: 26 unit cards give 1 sheet of 26 placements. -/
theorem sheets_for_26_cards_witness :
    (List.replicate 26 ()).length = 26 ∧
    (arrange_on_a4 (List.replicate 26 ())).length =
      (26 + cards_per_sheet - 1) / cards_per_sheet ∧
    ∃ last, (arrange_on_a4 (List.replicate 26 ())).getLast? = some last ∧
      last.length = 26 - cards_per_sheet *
        ((26 + cards_per_sheet - 1) / cards_per_sheet - 1) :=
  ⟨by decide, (sheets_for_26_cards _ (by decide)).1,
   (sheets_for_26_cards _ (by decide)).2⟩

/-- C9: with the requested clef's background absent, `create_flashcard`
pastes no background and draws no note, while the dashed fold line, the
180°-rotated answer text and the border are still produced (the embedding
is a total function: no exception is raised). -/
theorem missing_background_degrades (resize : RGBImage → ℤ → ℤ → RGBImage)
    (textSize : String → ℤ × ℤ) (trebleBG bassBG : Option RGBImage)
    (name : String) (position : ℤ) :
    create_flashcard resize textSize none bassBG name "treble" position =
      { bgPaste := none, note := none, fold := foldSegs 0,
        answer := answerLayout textSize name, border := true } ∧
    create_flashcard resize textSize trebleBG none name "bass" position =
      { bgPaste := none, note := none, fold := foldSegs 0,
        answer := answerLayout textSize name, border := true } ∧
    foldSegs 0 ≠ [] ∧
    (answerLayout textSize name).text = name ∧
    (answerLayout textSize name).rotated = true := by
  have hfold : foldSegs 0 = (0, min (0 + 10) CARD_HEIGHT) :: foldSegs (0 + 15) := by
    rw [foldSegs]
    simp [show (0 : Nat) < CARD_HEIGHT from by decide]
  refine ⟨rfl, ?_, by simp [hfold], rfl, rfl⟩
  simp [create_flashcard]

end Flashcards
